import Mathlib

/-!
Shallow embedding of the Mission Log daily-activity logger
(src/models.py, src/db.py, src/app.py) together with proofs about its
aggregation, streak, export and task-toggle behaviour.

Calendar days are modelled as proleptic-Gregorian ordinals (`Int`, the
value of Python's date.toordinal), and within-day timestamps as `Int`.
The SQLite store is modelled as the pair of lists of rows in stored
(rowid / insertion) order; a query without ORDER BY returns rows in
stored order, and ORDER BY is modelled as a stable sort on the key.
-/

namespace MissionLog

/-- A calendar date, as produced by Python's date.fromisoformat. -/
structure Date where
  year : Nat
  month : Nat
  day : Nat
deriving Repr, DecidableEq

/-- Gregorian leap-year rule (Python calendar.isleap / datetime internals). -/
def isLeapYear (y : Nat) : Bool :=
  y % 4 == 0 && (y % 100 != 0 || y % 400 == 0)

/-- Number of days in month m of year y (datetime internals). -/
def daysInMonth (y m : Nat) : Nat :=
  if m == 2 then (if isLeapYear y then 29 else 28)
  else if m == 4 || m == 6 || m == 9 || m == 11 then 30
  else 31

/-- Days in all years strictly before year y (datetime _days_before_year). -/
def daysBeforeYear (y : Nat) : Nat :=
  let n := y - 1
  n * 365 + n / 4 - n / 100 + n / 400

/-- Days in year y strictly before month m (datetime _days_before_month). -/
def daysBeforeMonth (y m : Nat) : Nat :=
  let tbl := [0, 31, 59, 90, 120, 151, 181, 212, 243, 273, 304, 334]
  (tbl.getD (m - 1) 0) + (if m > 2 && isLeapYear y then 1 else 0)

/-- Proleptic-Gregorian ordinal of a date, 0001-01-01 being day 1
(Python date.toordinal). -/
def toOrdinal (d : Date) : Int :=
  ((daysBeforeYear d.year + daysBeforeMonth d.year d.month + d.day : Nat) : Int)

/-- Digit value of an ASCII digit character. -/
def digitVal (c : Char) : Nat := c.toNat - '0'.toNat

/-- Python date.fromisoformat on the documented YYYY-MM-DD form: ten
characters, digits with dashes at positions 4 and 7, a valid month and a
valid day of that month, year at least 1; anything else raises ValueError
(modelled as none). -/
def parseIsoDate (s : String) : Option Date :=
  match s.toList with
  | [y1, y2, y3, y4, h1, m1, m2, h2, d1, d2] =>
    if y1.isDigit && y2.isDigit && y3.isDigit && y4.isDigit && h1 == '-' &&
       m1.isDigit && m2.isDigit && h2 == '-' && d1.isDigit && d2.isDigit then
      let y := ((digitVal y1 * 10 + digitVal y2) * 10 + digitVal y3) * 10 + digitVal y4
      let m := digitVal m1 * 10 + digitVal m2
      let d := digitVal d1 * 10 + digitVal d2
      if 1 ≤ y && 1 ≤ m && m ≤ 12 && 1 ≤ d && d ≤ daysInMonth y m then
        some ⟨y, m, d⟩
      else none
    else none
  | _ => none

/-- A log entry as manipulated by src/app.py: log_date bucket, creation
timestamp, category, text, outcome, and the nullable duration_min and
impact attributes that app.py reads and writes on entries. -/
structure LogEntry where
  id : Nat
  log_date : Int
  ts : Int
  category : String
  text : String
  outcome : String
  duration_min : Option Int
  impact : Option String
deriving Repr, DecidableEq

/-- A task row (src/models.py class Task). -/
structure Task where
  id : Nat
  log_date : Int
  ts : Int
  title : String
  done : Bool
deriving Repr, DecidableEq

/-- The persistent store: rows in stored (rowid / insertion) order. -/
structure Store where
  logs : List LogEntry
  tasks : List Task
deriving Repr, DecidableEq

/-- The mapped columns actually declared on models.LogEntry
(src/models.py lines 10-15): id, log_date, ts, category, text, outcome —
and nothing else. -/
def logEntryColumns : List String :=
  ["id", "log_date", "ts", "category", "text", "outcome"]

/-- The keyword arguments add_log passes to the LogEntry constructor
(src/app.py lines 129-136). -/
def addLogKwargs : List String :=
  ["log_date", "category", "text", "outcome", "duration_min", "impact"]

/-- SQLAlchemy's declarative constructor accepts a keyword argument iff
it names a declared mapped attribute; an unknown keyword raises
TypeError. This predicate is true iff the construction succeeds. -/
def declarativeInitOk (columns kwargs : List String) : Bool :=
  kwargs.all (fun k => columns.contains k)

/-- app.py line 47-53: a day qualifies for the streak when some log has
that log_date, or some task has that log_date and is currently done. -/
def qualifies (s : Store) (d : Int) : Bool :=
  s.logs.any (fun l => l.log_date == d) ||
    s.tasks.any (fun t => t.log_date == d && t.done)

/-- The while-loop of calculate_streak (app.py lines 45-61): starting
from the current streak counter and check_date, bump the counter and walk
one day back while the day qualifies; after each bump, stop as well once
the counter exceeds 365 (the safety limit). The loop is given the fuel
366 - streak: the safety limit fires as soon as the counter reaches 366,
so with that fuel the fuel-exhausted branch is never taken (the bound is
proved below as part of the cap theorems). -/
def streakLoop (s : Store) : Nat → Nat → Int → Nat
  | 0, streak, _ => streak
  | fuel + 1, streak, check =>
    if qualifies s check then
      if streak + 1 > 365 then streak + 1
      else streakLoop s fuel (streak + 1) (check - 1)
    else streak

/-- app.py calculate_streak: walk backward from the current date,
starting with a zero counter (hence fuel 366). -/
def calculate_streak (s : Store) (today : Int) : Nat :=
  streakLoop s 366 0 today

section StableSort

variable {α : Type}

/-- Insert a into m immediately before the first element that is not
strictly before a under lt; elements equal under the key stay ahead of
later-inserted ones, which makes the sort below stable. -/
def insertBefore (lt : α → α → Bool) (a : α) : List α → List α
  | [] => [a]
  | x :: xs => if lt x a then x :: insertBefore lt a xs else a :: x :: xs

/-- Stable insertion sort: the model of Python's sorted / SQL ORDER BY,
with lt the strict comes-before relation. -/
def stableSort (lt : α → α → Bool) : List α → List α
  | [] => []
  | x :: xs => insertBefore lt x (stableSort lt xs)

end StableSort

/-- ORDER BY ts ASC on log rows (strict comes-before key). -/
def logTsLt (a b : LogEntry) : Bool := a.ts < b.ts

/-- ORDER BY ts ASC on task rows. -/
def taskTsLt (a b : Task) : Bool := a.ts < b.ts

/-- ORDER BY log_date ASC, ts ASC on log rows. -/
def logDateTsLt (a b : LogEntry) : Bool :=
  a.log_date < b.log_date || (a.log_date == b.log_date && a.ts < b.ts)

/-- Python's sorted(items, key=minutes, reverse=True): the strict
comes-before relation holds when the left value is strictly larger. -/
def catLt (a b : String × Int) : Bool := b.2 < a.2

/-- Python `x or 0` on a nullable integer: None yields 0 (and 0 yields 0,
which Option.getD 0 also gives). -/
def orZero (x : Option Int) : Int := x.getD 0

/-- Python `x or "Low"` on a nullable string: None and "" both yield
"Low". -/
def orLow (x : Option String) : String :=
  match x with
  | none => "Low"
  | some v => if v == "" then "Low" else v

/-- app.py line 80 / 213: sum of (l.duration_min or 0) over the logs. -/
def totalMinutes (logs : List LogEntry) : Int :=
  (logs.map (fun l => orZero l.duration_min)).sum

/-- app.py line 83 / 214: same sum restricted to impact == "High". -/
def highImpactMinutes (logs : List LogEntry) : Int :=
  ((logs.filter (fun l => l.impact == some "High")).map
    (fun l => orZero l.duration_min)).sum

/-- app.py line 215: same sum restricted to impact == "Med". -/
def medImpactMinutes (logs : List LogEntry) : Int :=
  ((logs.filter (fun l => l.impact == some "Med")).map
    (fun l => orZero l.duration_min)).sum

/-- One step of by_cat[c] = by_cat.get(c, 0) + v on an insertion-ordered
dict modelled as an association list: update the first binding of c in
place, or append a fresh binding at the end. -/
def updateCat : List (String × Int) → String → Int → List (String × Int)
  | [], c, v => [(c, v)]
  | (k, x) :: rest, c, v =>
    if k == c then (k, x + v) :: rest else (k, x) :: updateCat rest c v

/-- app.py lines 86-88 / 220-222: category totals, keys in order of each
category's first occurrence in the log sequence. -/
def byCat (logs : List LogEntry) : List (String × Int) :=
  logs.foldl (fun m l => updateCat m l.category (orZero l.duration_min)) []

/-- app.py line 91 / 238: sorted(by_cat.items(), key=minutes,
reverse=True), a stable descending sort. -/
def byCatSorted (logs : List LogEntry) : List (String × Int) :=
  stableSort catLt (byCat logs)

/-- Sum of the values of a category map. -/
def sumSnd (m : List (String × Int)) : Int := (m.map (fun p => p.2)).sum

/-- Keys of a category map, in list order. -/
def keys (m : List (String × Int)) : List String := m.map (fun p => p.1)

/-- Modelled from the spec (section 4.1, by_category tie-break): the
deduplicated category sequence in insertion order of each category's
first occurrence. -/
def firstOccurrences (cs : List String) : List String :=
  cs.foldl (fun acc c => if c ∈ acc then acc else acc ++ [c]) []

/-- home's log query (app.py 71-73): filter by day, ORDER BY ts ASC. -/
def dayLogs (s : Store) (d : Int) : List LogEntry :=
  stableSort logTsLt (s.logs.filter (fun l => l.log_date == d))

/-- home's task query (app.py 75-77): filter by day, ORDER BY ts ASC. -/
def dayTasks (s : Store) (d : Int) : List Task :=
  stableSort taskTsLt (s.tasks.filter (fun t => t.log_date == d))

/-- export_weekly's log query (app.py 201-206): the inclusive range
[endDay - 6, endDay], ORDER BY log_date ASC, ts ASC. -/
def weekLogs (s : Store) (endDay : Int) : List LogEntry :=
  stableSort logDateTsLt
    (s.logs.filter (fun l => endDay - 6 ≤ l.log_date && l.log_date ≤ endDay))

/-- export_weekly's task query (app.py 207-211): range filter, no ORDER
BY, hence stored order. -/
def weekTasks (s : Store) (endDay : Int) : List Task :=
  s.tasks.filter (fun t => endDay - 6 ≤ t.log_date && t.log_date ≤ endDay)

/-- export_csv's log query (app.py 171): day filter only, no ORDER BY,
hence stored order. -/
def csvLogs (s : Store) (d : Int) : List LogEntry :=
  s.logs.filter (fun l => l.log_date == d)

/-- export_csv's task query (app.py 172): day filter only, no ORDER BY. -/
def csvTasks (s : Store) (d : Int) : List Task :=
  s.tasks.filter (fun t => t.log_date == d)

/-- The template context built by home (app.py 100-114). -/
structure DayView where
  log_date : Int
  logs : List LogEntry
  tasks : List Task
  total_minutes : Int
  high_impact_minutes : Int
  by_cat : List (String × Int)
  streak : Nat
  done_tasks : Nat
  total_tasks : Nat
deriving Repr, DecidableEq

/-- app.py home, after the day parameter has been resolved to a date. -/
def homeView (s : Store) (today : Int) (d : Int) : DayView :=
  let logs := dayLogs s d
  let tasks := dayTasks s d
  { log_date := d
    logs := logs
    tasks := tasks
    total_minutes := totalMinutes logs
    high_impact_minutes := highImpactMinutes logs
    by_cat := byCatSorted logs
    streak := calculate_streak s today
    done_tasks := tasks.countP (fun t => t.done)
    total_tasks := tasks.length }

/-- The error kinds a request can signal. -/
inductive RequestError where
  | invalidDate
deriving Repr, DecidableEq

/-- The idiom `date.fromisoformat(day) if day else date.today()` shared
by every endpoint: an absent or empty (falsy) day parameter falls back to
the current date; otherwise a parse failure raises ValueError, modelled
as the InvalidDate error. -/
def parseDayParam (today : Int) (day : Option String) : Except RequestError Int :=
  match day with
  | none => Except.ok today
  | some str =>
    if str == "" then Except.ok today
    else
      match parseIsoDate str with
      | some d => Except.ok (toOrdinal d)
      | none => Except.error RequestError.invalidDate

/-- app.py home (GET /): resolve the day parameter, then build the view. -/
def home (s : Store) (today : Int) (day : Option String) :
    Except RequestError DayView :=
  (parseDayParam today day).map (fun d => homeView s today d)

/-- app.py toggle_task core (lines 156-159): flip the done flag of the
first task whose id matches; leave everything else as it is. -/
def toggle_task : List Task → Nat → List Task
  | [], _ => []
  | t :: rest, tid =>
    if t.id == tid then { t with done := !t.done } :: rest
    else t :: toggle_task rest tid

/-- toggle_task's effect on the whole store: logs are untouched. -/
def toggleTaskStore (s : Store) (tid : Nat) : Store :=
  { s with tasks := toggle_task s.tasks tid }

/-- A task with its done flag cleared: the part of a task that
toggle_task must never change. -/
def stripDone (t : Task) : Task := { t with done := false }

/-- The CSV header row (app.py 178). -/
def csvHeader : List String :=
  ["Type", "Timestamp", "Category", "Text", "Outcome/Status", "Duration", "Impact"]

/-- One CSV row per log entry (app.py 180): Duration falls back to 0 and
Impact to "Low" when null. -/
def logRow (l : LogEntry) : List String :=
  ["Log", toString l.ts, l.category, l.text, l.outcome,
   toString (orZero l.duration_min), orLow l.impact]

/-- One CSV row per task (app.py 182-184). -/
def taskRow (t : Task) : List String :=
  ["Task", toString t.ts, "-", t.title,
   if t.done then "Done" else "Pending", "-", "-"]

/-- app.py export_csv (lines 174-184): header row, then one row appended
per queried log, then one row appended per queried task. -/
def export_csv_rows (s : Store) (d : Int) : List (List String) :=
  let rows := [csvHeader]
  let rows := (csvLogs s d).foldl (fun acc l => acc ++ [logRow l]) rows
  let rows := (csvTasks s d).foldl (fun acc t => acc ++ [taskRow t]) rows
  rows

/-- Modelled from the spec (section 4.3 CSV mode with section 6
queryLogsByDay / queryTasksByDay): the claimed table, with the log rows
and the task rows each in timestamp-ascending order. Stated only to be
compared with export_csv_rows. -/
def claimedCsvRows (s : Store) (d : Int) : List (List String) :=
  csvHeader ::
    ((stableSort logTsLt (s.logs.filter (fun l => l.log_date == d))).map logRow ++
      (stableSort taskTsLt (s.tasks.filter (fun t => t.log_date == d))).map taskRow)

/-- One emitted line of the weekly Markdown report, kept structured so
that headings can be told apart from entry and summary lines; renderLine
turns it into the exact text the source builds. -/
inductive Line where
  | text (s : String)
  | heading (d : Int)
  | entry (l : LogEntry)
deriving Repr, DecidableEq

/-- The per-log bullet of the Daily Notes section (app.py 247-250):
outcome suffix omitted when empty, parenthesized duration omitted when
null or zero (falsy), bracketed impact tag omitted when null, empty or
"Low". -/
def entryLine (l : LogEntry) : String :=
  let outcome := if l.outcome == "" then "" else " — _" ++ l.outcome ++ "_"
  let dur :=
    match l.duration_min with
    | none => ""
    | some n => if n == 0 then "" else " (" ++ toString n ++ "m)"
  let impact_tag :=
    match l.impact with
    | none => ""
    | some v => if v == "" || v == "Low" then "" else " [" ++ v ++ "]"
  "- **" ++ l.category ++ "**" ++ dur ++ impact_tag ++ ": " ++ l.text ++ outcome

/-- The Daily Notes loop (app.py 242-250): current starts as None; a
heading is emitted exactly when the log's day differs from current, and
current is then updated to that day; every log emits its entry line. -/
def dailyNotesLines (current : Option Int) : List LogEntry → List Line
  | [] => []
  | l :: rest =>
    if current == some l.log_date then
      Line.entry l :: dailyNotesLines current rest
    else
      Line.heading l.log_date :: Line.entry l :: dailyNotesLines (some l.log_date) rest

/-- Zero-padded two-digit rendering. -/
def pad2 (n : Nat) : String :=
  if n < 10 then "0" ++ toString n else toString n

/-- Two-decimal rendering of m/60 hours: an integer-arithmetic stand-in
(round half to even on the hundredths) for the Python float format
{m/60:.2f}; no claim depends on these digits. -/
def fmtHours (m : Int) : String :=
  let n := m.natAbs * 100
  let q := n / 60
  let r := n % 60
  let q := if 60 < 2 * r || (2 * r == 60 && q % 2 == 1) then q + 1 else q
  (if m < 0 then "-" else "") ++ toString (q / 100) ++ "." ++ pad2 (q % 100)

/-- The Time by Category section (app.py 238-239): one line per category
of the stably descending-sorted totals. -/
def timeByCategoryLines (m : List (String × Int)) : List Line :=
  (stableSort catLt m).map (fun cv =>
    Line.text ("- " ++ cv.1 ++ ": " ++ toString cv.2 ++ " min (" ++ fmtHours cv.2 ++ " hrs)"))

/-- The full line sequence built by export_weekly (app.py 227-250). -/
def export_weekly_lines (s : Store) (today endDay : Int) : List Line :=
  let start_day := endDay - 6
  let logs := weekLogs s endDay
  let tasks := weekTasks s endDay
  let total_minutes := totalMinutes logs
  let high_impact_minutes := highImpactMinutes logs
  let med_impact_minutes := medImpactMinutes logs
  let done_tasks := tasks.countP (fun t => t.done)
  let total_tasks := tasks.length
  let by_cat := byCat logs
  let streak := calculate_streak s today
  [Line.text ("# Weekly Execution Report (" ++ toString start_day ++ " → " ++ toString endDay ++ ")"),
   Line.text "",
   Line.text "## Summary",
   Line.text ("- Total time: **" ++ toString total_minutes ++ " min** (**" ++ fmtHours total_minutes ++ " hrs**)"),
   Line.text ("- High-impact time: **" ++ toString high_impact_minutes ++ " min** (**" ++ fmtHours high_impact_minutes ++ " hrs**)"),
   Line.text ("- Med-impact time: **" ++ toString med_impact_minutes ++ " min** (**" ++ fmtHours med_impact_minutes ++ " hrs**)"),
   Line.text ("- Tasks: **" ++ toString done_tasks ++ "/" ++ toString total_tasks ++ "** completed"),
   Line.text ("- Current streak: **" ++ toString streak ++ " days**"),
   Line.text "",
   Line.text "## Time by Category"] ++
  timeByCategoryLines by_cat ++
  [Line.text "", Line.text "## Daily Notes"] ++
  dailyNotesLines none logs

/-- Render one structured line to the exact string the source appends. -/
def renderLine : Line → String
  | Line.text s => s
  | Line.heading d => "### " ++ toString d
  | Line.entry l => entryLine l

/-- The values export_weekly computes (app.py 198-250), kept alongside
the rendered line sequence so that theorems can speak about them. -/
structure WeeklyView where
  start_day : Int
  end_day : Int
  logs : List LogEntry
  tasks : List Task
  total_minutes : Int
  high_impact_minutes : Int
  med_impact_minutes : Int
  done_tasks : Nat
  total_tasks : Nat
  by_cat : List (String × Int)
  streak : Nat
  notes : List Line
  lines : List Line
deriving Repr, DecidableEq

/-- app.py export_weekly, after the day parameter has been resolved. -/
def exportWeeklyView (s : Store) (today endDay : Int) : WeeklyView :=
  let logs := weekLogs s endDay
  let tasks := weekTasks s endDay
  { start_day := endDay - 6
    end_day := endDay
    logs := logs
    tasks := tasks
    total_minutes := totalMinutes logs
    high_impact_minutes := highImpactMinutes logs
    med_impact_minutes := medImpactMinutes logs
    done_tasks := tasks.countP (fun t => t.done)
    total_tasks := tasks.length
    by_cat := byCat logs
    streak := calculate_streak s today
    notes := dailyNotesLines none logs
    lines := export_weekly_lines s today endDay }

/-- app.py export_weekly (GET /export/weekly): resolve the day parameter,
then build the weekly report. -/
def export_weekly (s : Store) (today : Int) (day : Option String) :
    Except RequestError WeeklyView :=
  (parseDayParam today day).map (fun d => exportWeeklyView s today d)

/-- The final Markdown blob (app.py 252). -/
def export_weekly_md (s : Store) (today endDay : Int) : String :=
  String.intercalate "\n" ((export_weekly_lines s today endDay).map renderLine)

/-- A plain log row used by the concrete fixtures below. -/
def sampleLog (i : Nat) (d ts : Int) (c : String) (dur : Int) (imp : String) : LogEntry :=
  { id := i, log_date := d, ts := ts, category := c, text := "work",
    outcome := "", duration_min := some dur, impact := some imp }

/-- A plain task row used by the concrete fixtures below. -/
def sampleTask (i : Nat) (d ts : Int) (done : Bool) : Task :=
  { id := i, log_date := d, ts := ts, title := "todo", done := done }

/-- Streak fixture: with the reference day 10, days 10 and 9 qualify
(a log and a done task), day 8 does not (its only task is not done),
day 7 qualifies again. -/
def streakFixture : Store :=
  { logs := [sampleLog 1 10 0 "Dev" 30 "High", sampleLog 2 7 0 "Dev" 10 "Low"],
    tasks := [sampleTask 1 9 0 true, sampleTask 2 8 0 false] }

/-- Cap fixture: one log on every day 0..365, so 366 consecutive days
ending at day 365 qualify. -/
def capStore : Store :=
  { logs := (List.range 366).map (fun i => sampleLog i (i : Int) 0 "General" 0 "Low"),
    tasks := [] }

/-- CSV fixture: two logs of day 0 whose stored order disagrees with
their timestamp order. -/
def csvFixture : Store :=
  { logs := [sampleLog 1 0 5 "Dev" 30 "High", sampleLog 2 0 3 "Ops" 10 "Low"],
    tasks := [] }

/-- Tie fixture: categories "Dev" and "Ops" first occur in this order and
tie at 30 summed minutes; "Big" has 40. -/
def tieFixture : Store :=
  { logs := [sampleLog 1 0 1 "Dev" 30 "High", sampleLog 2 0 2 "Ops" 5 "Low",
             sampleLog 3 0 3 "Big" 40 "Med", sampleLog 4 0 4 "Ops" 25 "Low"],
    tasks := [] }

/-- Toggle fixture: two tasks with ids 1 and 2. -/
def toggleFixture : Store :=
  { logs := [],
    tasks := [sampleTask 1 0 0 false, sampleTask 2 0 1 true] }

/-- The empty store. -/
def emptyStore : Store := { logs := [], tasks := [] }

section StableSortLemmas

variable {α : Type} (lt : α → α → Bool)

theorem mem_insertBefore (a x : α) (m : List α) :
    x ∈ insertBefore lt a m ↔ x = a ∨ x ∈ m := by
  induction m with
  | nil => simp [insertBefore]
  | cons y ys ih =>
    cases h : lt y a with
    | true =>
      simp only [insertBefore, h, if_true, List.mem_cons, ih]
      tauto
    | false => simp only [insertBefore, h, Bool.false_eq_true, if_false, List.mem_cons]

theorem insertBefore_perm (a : α) (m : List α) :
    (insertBefore lt a m).Perm (a :: m) := by
  induction m with
  | nil => simp [insertBefore]
  | cons y ys ih =>
    cases h : lt y a with
    | true =>
      simp only [insertBefore, h, if_true]
      exact (ih.cons y).trans (List.Perm.swap a y ys)
    | false => simp [insertBefore, h]

theorem stableSort_perm (m : List α) : (stableSort lt m).Perm m := by
  induction m with
  | nil => simp [stableSort]
  | cons x xs ih =>
    exact (insertBefore_perm lt x (stableSort lt xs)).trans (ih.cons x)

theorem pairwise_insertBefore
    (hneg : ∀ a b c, lt a b = false → lt b c = false → lt a c = false)
    (hasym : ∀ a b, lt a b = true → lt b a = false)
    (a : α) (m : List α)
    (hm : m.Pairwise (fun x y => lt y x = false)) :
    (insertBefore lt a m).Pairwise (fun x y => lt y x = false) := by
  induction m with
  | nil => simp [insertBefore]
  | cons y ys ih =>
    rw [List.pairwise_cons] at hm
    obtain ⟨hy, hys⟩ := hm
    cases h : lt y a with
    | true =>
      simp only [insertBefore, h, if_true, List.pairwise_cons]
      refine ⟨?_, ih hys⟩
      intro z hz
      rcases (mem_insertBefore lt a z ys).mp hz with rfl | hz'
      · exact hasym y z h
      · exact hy z hz'
    | false =>
      simp only [insertBefore, h, Bool.false_eq_true, if_false, List.pairwise_cons,
        List.mem_cons]
      refine ⟨?_, ?_, hys⟩
      · intro z hz
        rcases hz with rfl | hz'
        · exact h
        · exact hneg z y a (hy z hz') h
      · exact hy

theorem pairwise_stableSort
    (hneg : ∀ a b c, lt a b = false → lt b c = false → lt a c = false)
    (hasym : ∀ a b, lt a b = true → lt b a = false)
    (m : List α) :
    (stableSort lt m).Pairwise (fun x y => lt y x = false) := by
  induction m with
  | nil => simp [stableSort]
  | cons x xs ih => exact pairwise_insertBefore lt hneg hasym x _ ih

theorem sublist_insertBefore (a : α) (m : List α) :
    m.Sublist (insertBefore lt a m) := by
  induction m with
  | nil => simp [insertBefore]
  | cons y ys ih =>
    cases h : lt y a with
    | true => simpa only [insertBefore, h, if_true] using ih.cons₂ y
    | false =>
      simp only [insertBefore, h, Bool.false_eq_true, if_false]
      exact List.sublist_cons_self a (y :: ys)

theorem insertBefore_pair (a q : α) (m : List α)
    (hq : q ∈ m) (h : lt q a = false) :
    List.Sublist [a, q] (insertBefore lt a m) := by
  induction m with
  | nil => cases hq
  | cons y ys ih =>
    cases hy : lt y a with
    | true =>
      simp only [insertBefore, hy, if_true]
      have hqy : q ∈ ys := by
        rcases List.mem_cons.mp hq with rfl | hq'
        · rw [hy] at h; cases h
        · exact hq'
      exact (ih hqy).cons y
    | false =>
      simp only [insertBefore, hy, Bool.false_eq_true, if_false]
      exact (List.singleton_sublist.mpr hq).cons₂ a

theorem stableSort_stable (p q : α) (h : lt q p = false) :
    ∀ m : List α, List.Sublist [p, q] m →
      List.Sublist [p, q] (stableSort lt m) := by
  intro m
  induction m with
  | nil => intro hs; cases hs
  | cons x xs ih =>
    intro hs
    cases hs with
    | cons _ h' =>
      exact (ih h').trans (sublist_insertBefore lt x (stableSort lt xs))
    | cons₂ _ h' =>
      have hq : q ∈ stableSort lt xs :=
        ((stableSort_perm lt xs).mem_iff).mpr (h'.subset (List.mem_cons_self q []))
      exact insertBefore_pair lt p q (stableSort lt xs) hq h

end StableSortLemmas

theorem sumSnd_updateCat (m : List (String × Int)) (c : String) (v : Int) :
    sumSnd (updateCat m c v) = sumSnd m + v := by
  induction m with
  | nil => simp [updateCat, sumSnd]
  | cons p rest ih =>
    obtain ⟨k, x⟩ := p
    cases h : (k == c) with
    | true =>
      simp only [updateCat, h, if_true, sumSnd, List.map_cons, List.sum_cons]
      ring
    | false =>
      simp only [updateCat, h, Bool.false_eq_true, if_false, sumSnd, List.map_cons,
        List.sum_cons] at ih ⊢
      rw [ih]
      ring

theorem sumSnd_byCat_foldl (logs : List LogEntry) :
    ∀ m : List (String × Int),
      sumSnd (logs.foldl (fun m l => updateCat m l.category (orZero l.duration_min)) m)
        = sumSnd m + totalMinutes logs := by
  induction logs with
  | nil => intro m; simp [totalMinutes]
  | cons l rest ih =>
    intro m
    simp only [List.foldl_cons]
    rw [ih, sumSnd_updateCat]
    simp only [totalMinutes, List.map_cons, List.sum_cons]
    ring

theorem sumSnd_byCat (logs : List LogEntry) :
    sumSnd (byCat logs) = totalMinutes logs := by
  have h := sumSnd_byCat_foldl logs []
  simpa [byCat, sumSnd] using h

theorem sumSnd_stableSort (m : List (String × Int)) :
    sumSnd (stableSort catLt m) = sumSnd m := by
  exact ((stableSort_perm catLt m).map (fun p => p.2)).sum_eq

theorem keys_updateCat (m : List (String × Int)) (c : String) (v : Int) :
    keys (updateCat m c v) = if c ∈ keys m then keys m else keys m ++ [c] := by
  induction m with
  | nil => simp [updateCat, keys]
  | cons p rest ih =>
    obtain ⟨k, x⟩ := p
    cases h : (k == c) with
    | true =>
      obtain rfl : k = c := beq_iff_eq.mp h
      simp only [updateCat, h, if_true, keys, List.map_cons]
      rw [if_pos (List.mem_cons_self _ _)]
    | false =>
      have hne : c ≠ k := fun he => by rw [he] at h; simp at h
      simp only [updateCat, h, Bool.false_eq_true, if_false, keys, List.map_cons] at ih ⊢
      rw [ih]
      by_cases hc : c ∈ List.map (fun p => p.1) rest
      · rw [if_pos hc, if_pos (List.mem_cons_of_mem k hc)]
      · rw [if_neg hc, if_neg ?_]
        · simp
        · intro hmem
          rcases List.mem_cons.mp hmem with he | hc'
          · exact hne he
          · exact hc hc'

theorem keys_byCat_foldl (logs : List LogEntry) :
    ∀ m : List (String × Int),
      keys (logs.foldl (fun m l => updateCat m l.category (orZero l.duration_min)) m)
        = (logs.map (fun l => l.category)).foldl
            (fun acc c => if c ∈ acc then acc else acc ++ [c]) (keys m) := by
  induction logs with
  | nil => intro m; simp
  | cons l rest ih =>
    intro m
    simp only [List.foldl_cons, List.map_cons]
    rw [ih, keys_updateCat]

theorem keys_byCat (logs : List LogEntry) :
    keys (byCat logs) = firstOccurrences (logs.map (fun l => l.category)) := by
  have h := keys_byCat_foldl logs []
  simpa [byCat, keys, firstOccurrences] using h

theorem streakLoop_le (s : Store) :
    ∀ (fuel streak : Nat) (check : Int), streak ≤ 365 →
      streakLoop s fuel streak check ≤ 366 := by
  intro fuel
  induction fuel with
  | zero => intro streak check h; simpa [streakLoop] using by omega
  | succ f ih =>
    intro streak check h
    simp only [streakLoop]
    cases hq : qualifies s check with
    | false => simp; omega
    | true =>
      simp only [if_true]
      by_cases hcap : streak + 1 > 365
      · simp [hcap]; omega
      · simp only [hcap, if_false]
        exact ih (streak + 1) (check - 1) (by omega)

theorem streakLoop_stops (s : Store) :
    ∀ (k streak fuel : Nat) (check : Int),
      streak + k ≤ 365 → k + 1 ≤ fuel →
      (∀ i ∈ List.range k, qualifies s (check - i) = true) →
      qualifies s (check - k) = false →
      streakLoop s fuel streak check = streak + k := by
  intro k
  induction k with
  | zero =>
    intro streak fuel check hle hf hq hstop
    obtain ⟨f, rfl⟩ : ∃ f, fuel = f + 1 := ⟨fuel - 1, by omega⟩
    have h0 : qualifies s check = false := by simpa using hstop
    simp [streakLoop, h0]
  | succ k ih =>
    intro streak fuel check hle hf hq hstop
    obtain ⟨f, rfl⟩ : ∃ f, fuel = f + 1 := ⟨fuel - 1, by omega⟩
    have h0 : qualifies s check = true := by
      have := hq 0 (List.mem_range.mpr (by omega))
      simpa using this
    have hcap : ¬ streak + 1 > 365 := by omega
    simp only [streakLoop, h0, if_true, hcap, if_false]
    have hrec := ih (streak + 1) f (check - 1) (by omega) (by omega) ?_ ?_
    · rw [hrec]; omega
    · intro i hi
      have hi' := List.mem_range.mp hi
      have := hq (i + 1) (List.mem_range.mpr (by omega))
      have harith : check - 1 - (i : Int) = check - ((i : Nat) + 1 : Nat) := by
        push_cast
        ring
      rw [harith]
      exact this
    · have harith : check - 1 - (k : Int) = check - ((k : Nat) + 1 : Nat) := by
        push_cast
        ring
      rw [harith]
      exact hstop

theorem streakLoop_reaches_cap (s : Store) :
    ∀ (n streak fuel : Nat) (check : Int),
      streak + n = 365 → n + 1 ≤ fuel →
      (∀ i ∈ List.range (n + 1), qualifies s (check - i) = true) →
      streakLoop s fuel streak check = 366 := by
  intro n
  induction n with
  | zero =>
    intro streak fuel check heq hf hq
    obtain ⟨f, rfl⟩ : ∃ f, fuel = f + 1 := ⟨fuel - 1, by omega⟩
    have h0 : qualifies s check = true := by
      have := hq 0 (List.mem_range.mpr (by omega))
      simpa using this
    have hcap : streak + 1 > 365 := by omega
    simp [streakLoop, h0, hcap]
    omega
  | succ n ih =>
    intro streak fuel check heq hf hq
    obtain ⟨f, rfl⟩ : ∃ f, fuel = f + 1 := ⟨fuel - 1, by omega⟩
    have h0 : qualifies s check = true := by
      have := hq 0 (List.mem_range.mpr (by omega))
      simpa using this
    have hcap : ¬ streak + 1 > 365 := by omega
    simp only [streakLoop, h0, if_true, hcap, if_false]
    apply ih (streak + 1) f (check - 1) (by omega) (by omega)
    intro i hi
    have hi' := List.mem_range.mp hi
    have := hq (i + 1) (List.mem_range.mpr (by omega))
    have harith : check - 1 - (i : Int) = check - ((i : Nat) + 1 : Nat) := by
      push_cast
      ring
    rw [harith]
    exact this

theorem logDateTsLt_eq_true (a b : LogEntry) :
    logDateTsLt a b = true ↔
      (a.log_date < b.log_date ∨ (a.log_date = b.log_date ∧ a.ts < b.ts)) := by
  simp [logDateTsLt, Bool.or_eq_true, Bool.and_eq_true, beq_iff_eq, decide_eq_true_eq]

theorem catLt_eq_true (a b : String × Int) : catLt a b = true ↔ b.2 < a.2 := by
  simp [catLt, decide_eq_true_eq]

theorem catLt_neg_trans (a b c : String × Int) :
    catLt a b = false → catLt b c = false → catLt a c = false := by
  intro hab hbc
  rw [Bool.eq_false_iff] at hab hbc ⊢
  rw [ne_eq, catLt_eq_true] at hab hbc ⊢
  omega

theorem catLt_asymm (a b : String × Int) : catLt a b = true → catLt b a = false := by
  intro h
  rw [catLt_eq_true] at h
  rw [Bool.eq_false_iff, ne_eq, catLt_eq_true]
  omega

theorem logDateTsLt_neg_trans (a b c : LogEntry) :
    logDateTsLt a b = false → logDateTsLt b c = false → logDateTsLt a c = false := by
  intro hab hbc
  rw [Bool.eq_false_iff] at hab hbc ⊢
  rw [ne_eq, logDateTsLt_eq_true] at hab hbc ⊢
  omega

theorem logDateTsLt_asymm (a b : LogEntry) :
    logDateTsLt a b = true → logDateTsLt b a = false := by
  intro h
  rw [logDateTsLt_eq_true] at h
  rw [Bool.eq_false_iff, ne_eq, logDateTsLt_eq_true]
  omega

theorem weekLogs_pairwise_dates (s : Store) (endDay : Int) :
    List.Pairwise (fun a b : LogEntry => a.log_date ≤ b.log_date)
      (weekLogs s endDay) := by
  have h := pairwise_stableSort logDateTsLt logDateTsLt_neg_trans logDateTsLt_asymm
    (s.logs.filter (fun l => endDay - 6 ≤ l.log_date && l.log_date ≤ endDay))
  refine h.imp ?_
  intro a b hba
  rw [Bool.eq_false_iff, ne_eq, logDateTsLt_eq_true] at hba
  omega

theorem mem_weekLogs (s : Store) (endDay : Int) (l : LogEntry) :
    l ∈ weekLogs s endDay ↔
      l ∈ s.logs ∧ endDay - 6 ≤ l.log_date ∧ l.log_date ≤ endDay := by
  unfold weekLogs
  rw [(stableSort_perm logDateTsLt _).mem_iff, List.mem_filter]
  simp [Bool.and_eq_true, decide_eq_true_eq]

theorem notes_heading_mem (d : Int) :
    ∀ (logs : List LogEntry) (cur : Option Int),
      Line.heading d ∈ dailyNotesLines cur logs → ∃ l ∈ logs, l.log_date = d := by
  intro logs
  induction logs with
  | nil => intro cur h; simp [dailyNotesLines] at h
  | cons l rest ih =>
    intro cur h
    cases hc : (cur == some l.log_date) with
    | true =>
      simp only [dailyNotesLines, hc, if_true] at h
      rcases List.mem_cons.mp h with h1 | h2
      · cases h1
      · obtain ⟨l', hl', he⟩ := ih cur h2
        exact ⟨l', List.mem_cons_of_mem _ hl', he⟩
    | false =>
      rw [dailyNotesLines, hc] at h
      simp only [Bool.false_eq_true, if_false, List.mem_cons] at h
      rcases h with h1 | h2 | h3
      · injection h1 with he
        exact ⟨l, List.mem_cons_self l rest, he.symm⟩
      · cases h2
      · obtain ⟨l', hl', he⟩ := ih (some l.log_date) h3
        exact ⟨l', List.mem_cons_of_mem _ hl', he⟩

theorem notes_heading_exists (d : Int) :
    ∀ (logs : List LogEntry) (cur : Option Int),
      (∃ l ∈ logs, l.log_date = d) → cur ≠ some d →
      Line.heading d ∈ dailyNotesLines cur logs := by
  intro logs
  induction logs with
  | nil =>
    rintro cur ⟨l, hl, _⟩ _
    cases hl
  | cons l rest ih =>
    rintro cur ⟨l', hl', hd⟩ hcur
    by_cases hld : l.log_date = d
    · have hc : (cur == some l.log_date) = false := by
        rw [beq_eq_false_iff_ne]
        intro he
        rw [he, hld] at hcur
        exact hcur rfl
      rw [dailyNotesLines, hc]
      simp only [Bool.false_eq_true, if_false, List.mem_cons]
      left
      rw [hld]
    · have hl'' : l' ∈ rest := by
        rcases List.mem_cons.mp hl' with rfl | hmem
        · exact absurd hd hld
        · exact hmem
      cases hc : (cur == some l.log_date) with
      | true =>
        simp only [dailyNotesLines, hc, if_true]
        exact List.mem_cons_of_mem _ (ih cur ⟨l', hl'', hd⟩ hcur)
      | false =>
        rw [dailyNotesLines, hc]
        simp only [Bool.false_eq_true, if_false, List.mem_cons]
        right; right
        refine ih (some l.log_date) ⟨l', hl'', hd⟩ ?_
        intro he
        injection he with he'
        exact hld he'

theorem notes_count_zero (d : Int) (logs : List LogEntry) (cur : Option Int)
    (h : ∀ l ∈ logs, l.log_date ≠ d) :
    List.count (Line.heading d) (dailyNotesLines cur logs) = 0 := by
  rw [List.count_eq_zero]
  intro hmem
  obtain ⟨l, hl, he⟩ := notes_heading_mem d logs cur hmem
  exact h l hl he

theorem notes_count_run (d : Int) :
    ∀ logs : List LogEntry,
      List.Pairwise (fun a b : LogEntry => a.log_date ≤ b.log_date) logs →
      (∀ l ∈ logs, d ≤ l.log_date) →
      List.count (Line.heading d) (dailyNotesLines (some d) logs) = 0 := by
  intro logs
  induction logs with
  | nil => intro _ _; simp [dailyNotesLines]
  | cons l rest ih =>
    intro hpw hge
    rw [List.pairwise_cons] at hpw
    obtain ⟨hl, hrest⟩ := hpw
    by_cases hld : l.log_date = d
    · have hc : ((some d : Option Int) == some l.log_date) = true := by
        rw [beq_iff_eq, hld]
      simp only [dailyNotesLines, hc, if_true]
      rw [List.count_cons_of_ne (by intro he; cases he)]
      exact ih hrest (fun x hx => hge x (List.mem_cons_of_mem _ hx))
    · have hdlt : d < l.log_date :=
        lt_of_le_of_ne (hge l (List.mem_cons_self l rest)) (fun he => hld he.symm)
      have hc : ((some d : Option Int) == some l.log_date) = false := by
        rw [beq_eq_false_iff_ne]
        intro he
        injection he with he'
        exact hld he'.symm
      rw [dailyNotesLines, hc]
      simp only [Bool.false_eq_true, if_false]
      rw [List.count_cons_of_ne (by intro he; injection he with he'; omega),
        List.count_cons_of_ne (by intro he; cases he)]
      apply notes_count_zero
      intro x hx he
      have := hl x hx
      omega

theorem notes_count_one (d : Int) :
    ∀ (logs : List LogEntry) (cur : Option Int),
      List.Pairwise (fun a b : LogEntry => a.log_date ≤ b.log_date) logs →
      (∃ l ∈ logs, l.log_date = d) → cur ≠ some d →
      List.count (Line.heading d) (dailyNotesLines cur logs) = 1 := by
  intro logs
  induction logs with
  | nil =>
    rintro cur _ ⟨l, hl, _⟩ _
    cases hl
  | cons l rest ih =>
    rintro cur hpw ⟨l', hl', hd⟩ hcur
    rw [List.pairwise_cons] at hpw
    obtain ⟨hl, hrest⟩ := hpw
    by_cases hld : l.log_date = d
    · have hc : (cur == some l.log_date) = false := by
        rw [beq_eq_false_iff_ne]
        intro he
        rw [he, hld] at hcur
        exact hcur rfl
      rw [dailyNotesLines, hc]
      simp only [Bool.false_eq_true, if_false]
      rw [hld, List.count_cons_self, List.count_cons_of_ne (by intro he; cases he)]
      rw [notes_count_run d rest hrest ?_]
      · intro x hx
        have := hl x hx
        omega
    · have hl'' : l' ∈ rest := by
        rcases List.mem_cons.mp hl' with rfl | hmem
        · exact absurd hd hld
        · exact hmem
      cases hc : (cur == some l.log_date) with
      | true =>
        simp only [dailyNotesLines, hc, if_true]
        rw [List.count_cons_of_ne (by intro he; cases he)]
        exact ih cur hrest ⟨l', hl'', hd⟩ hcur
      | false =>
        rw [dailyNotesLines, hc]
        simp only [Bool.false_eq_true, if_false]
        rw [List.count_cons_of_ne (by intro he; injection he with he'; exact hld he'.symm),
          List.count_cons_of_ne (by intro he; cases he)]
        refine ih (some l.log_date) hrest ⟨l', hl'', hd⟩ ?_
        intro he
        injection he with he'
        exact hld he'

theorem qualifies_capStore (d : Int) (h0 : 0 ≤ d) (h1 : d ≤ 365) :
    qualifies capStore d = true := by
  unfold qualifies capStore
  rw [Bool.or_eq_true, List.any_eq_true]
  left
  refine ⟨sampleLog d.toNat d 0 "General" 0 "Low", ?_, ?_⟩
  · rw [List.mem_map]
    refine ⟨d.toNat, List.mem_range.mpr (by omega), ?_⟩
    rw [Int.toNat_of_nonneg h0]
  · simp [sampleLog]

theorem foldl_append_map {γ β : Type} (f : γ → β) :
    ∀ (xs : List γ) (acc : List β),
      xs.foldl (fun a x => a ++ [f x]) acc = acc ++ xs.map f := by
  intro xs
  induction xs with
  | nil => intro acc; simp
  | cons x rest ih =>
    intro acc
    simp [ih]

/-- C1: the claim says every LogEntry carries duration_min and impact
fields that add_log stores and later reads yield. In the code,
models.LogEntry declares neither column, so the keyword arguments that
add_log passes are rejected by the declarative constructor (TypeError at
runtime): the construction check is false, and both field names are
absent from the declared columns. -/
theorem C1_missing_columns :
    declarativeInitOk logEntryColumns addLogKwargs = false
    ∧ logEntryColumns.contains "duration_min" = false
    ∧ logEntryColumns.contains "impact" = false := by
  decide

/-- C2: in the single-day view and in the weekly export, total_minutes is
the sum of duration_min over the logs in scope with null read as 0, and
the values of the category breakdown sum to total_minutes. -/
theorem C2_totals (s : Store) (today d : Int) :
    (homeView s today d).total_minutes
        = ((homeView s today d).logs.map (fun l => l.duration_min.getD 0)).sum
    ∧ sumSnd (homeView s today d).by_cat = (homeView s today d).total_minutes
    ∧ (exportWeeklyView s today d).total_minutes
        = ((exportWeeklyView s today d).logs.map (fun l => l.duration_min.getD 0)).sum
    ∧ sumSnd (exportWeeklyView s today d).by_cat
        = (exportWeeklyView s today d).total_minutes := by
  refine ⟨rfl, ?_, rfl, ?_⟩
  · show sumSnd (byCatSorted (dayLogs s d)) = totalMinutes (dayLogs s d)
    rw [byCatSorted, sumSnd_stableSort, sumSnd_byCat]
  · show sumSnd (byCat (weekLogs s d)) = totalMinutes (weekLogs s d)
    rw [sumSnd_byCat]

/-- C3: calculate_streak counts the consecutive days, walking backward
from the reference day inclusive, on which qualifying activity exists (a
log, or a currently-done task), stopping at the first non-qualifying day:
whenever the first k days all qualify and day k back does not (k within
the cap), the result is exactly k. The witness instantiates the fixture
with days D and D-1 qualifying, D-2 not and D-3 qualifying, yielding 2. -/
theorem C3_streak_consecutive_days (s : Store) (today : Int) (k : Nat)
    (hk : k ≤ 365)
    (hq : ∀ i ∈ List.range k, qualifies s (today - i) = true)
    (hstop : qualifies s (today - k) = false) :
    calculate_streak s today = k := by
  have h := streakLoop_stops s k 0 366 today (by omega) (by omega) hq hstop
  simpa [calculate_streak] using h

/-- C3 witness: the fixture with qualifying days 10 and 9, non-qualifying
day 8 (its task is not done) and qualifying day 7 gives streak 2. -/
theorem C3_streak_witness : calculate_streak streakFixture 10 = 2 :=
  C3_streak_consecutive_days streakFixture 10 2 (by omega) (by decide) (by decide)

/-- C4 counterexample: the claim bounds the result by 365, but the safety
check runs only after the counter has been incremented, so a store in
which 366 consecutive days ending at the reference day all qualify makes
calculate_streak return 366. -/
theorem C4_counterexample : 365 < calculate_streak capStore 365 := by
  have h : streakLoop capStore 366 0 365 = 366 := by
    apply streakLoop_reaches_cap capStore 365 0 366 365 (by omega) (by omega)
    intro i hi
    have hi' := List.mem_range.mp hi
    apply qualifies_capStore <;> omega
  rw [calculate_streak, h]
  omega

/-- C4 amended: the walk is bounded by the safety cap, so calculate_streak
always terminates with an integer n, 0 ≤ n ≤ 366 (366, not 365, because
the cap check follows the increment). -/
theorem C4_streak_le_366 (s : Store) (today : Int) :
    calculate_streak s today ≤ 366 :=
  streakLoop_le s 366 0 today (by omega)

/-- C5 counterexample: the claim puts the CSV log rows in
timestamp-ascending order, but export_csv queries without ORDER BY, so a
store whose two same-day logs are stored in the reverse of their
timestamp order yields rows that differ from the claimed table. -/
theorem C5_counterexample :
    export_csv_rows csvFixture 0 ≠ claimedCsvRows csvFixture 0 := by
  decide

/-- C5 amended: export_csv emits the header row, then one Log row per log
with its fields (Duration null read as 0, Impact null read as "Low"), then
one Task row per task, with all log rows before all task rows and each
group in stored (query) order — which is not necessarily
timestamp-ascending. -/
theorem C5_csv_rows (s : Store) (d : Int) :
    export_csv_rows s d
      = csvHeader :: ((csvLogs s d).map logRow ++ (csvTasks s d).map taskRow) := by
  simp only [export_csv_rows, foldl_append_map]
  simp

/-- C6: the weekly export covers exactly the 7-day inclusive window
ending at the given end day (start = end - 6), and in the Daily Notes
section a heading for day d appears iff some stored log falls on d inside
the window — exactly once then — so a day with zero logs produces no
heading. -/
theorem C6_weekly_window_headings (s : Store) (today endDay d : Int) :
    (exportWeeklyView s today endDay).start_day = endDay - 6
    ∧ (∀ l : LogEntry, l ∈ (exportWeeklyView s today endDay).logs ↔
        l ∈ s.logs ∧ endDay - 6 ≤ l.log_date ∧ l.log_date ≤ endDay)
    ∧ (Line.heading d ∈ (exportWeeklyView s today endDay).notes ↔
        ∃ l ∈ s.logs, l.log_date = d ∧ endDay - 6 ≤ d ∧ d ≤ endDay)
    ∧ List.count (Line.heading d) (exportWeeklyView s today endDay).notes
        = (if ∃ l ∈ s.logs, l.log_date = d ∧ endDay - 6 ≤ d ∧ d ≤ endDay
           then 1 else 0) := by
  refine ⟨rfl, ?_, ?_, ?_⟩
  · intro l
    exact mem_weekLogs s endDay l
  · show Line.heading d ∈ dailyNotesLines none (weekLogs s endDay) ↔ _
    constructor
    · intro h
      obtain ⟨l, hl, he⟩ := notes_heading_mem d _ none h
      rw [mem_weekLogs] at hl
      exact ⟨l, hl.1, he, he ▸ hl.2.1, he ▸ hl.2.2⟩
    · rintro ⟨l, hl, he, h1, h2⟩
      refine notes_heading_exists d _ none ⟨l, ?_, he⟩ (by simp)
      rw [mem_weekLogs]
      exact ⟨hl, he.symm ▸ h1, he.symm ▸ h2⟩
  · show List.count (Line.heading d) (dailyNotesLines none (weekLogs s endDay)) = _
    by_cases hex : ∃ l ∈ s.logs, l.log_date = d ∧ endDay - 6 ≤ d ∧ d ≤ endDay
    · rw [if_pos hex]
      obtain ⟨l, hl, he, h1, h2⟩ := hex
      refine notes_count_one d _ none (weekLogs_pairwise_dates s endDay) ⟨l, ?_, he⟩ (by simp)
      rw [mem_weekLogs]
      exact ⟨hl, he.symm ▸ h1, he.symm ▸ h2⟩
    · rw [if_neg hex]
      apply notes_count_zero
      intro x hx he
      rw [mem_weekLogs] at hx
      exact hex ⟨x, hx.1, he, he ▸ hx.2.1, he ▸ hx.2.2⟩

/-- C7: in the day view and in the weekly report, the rendered category
breakdown is sorted by descending summed minutes; the underlying map
lists categories in first-occurrence order of the log sequence, and the
sort is stable, so tied categories stay in that first-occurrence order. -/
theorem C7_by_category_order (s : Store) (today d : Int) (p q : String × Int) :
    List.Pairwise (fun a b : String × Int => b.2 ≤ a.2) (homeView s today d).by_cat
    ∧ List.Pairwise (fun a b : String × Int => b.2 ≤ a.2)
        (stableSort catLt (exportWeeklyView s today d).by_cat)
    ∧ keys (byCat (dayLogs s d))
        = firstOccurrences ((dayLogs s d).map (fun l => l.category))
    ∧ keys (byCat (weekLogs s d))
        = firstOccurrences ((weekLogs s d).map (fun l => l.category))
    ∧ (p.2 = q.2 → List.Sublist [p, q] (byCat (dayLogs s d)) →
        List.Sublist [p, q] (homeView s today d).by_cat)
    ∧ (p.2 = q.2 → List.Sublist [p, q] (byCat (weekLogs s d)) →
        List.Sublist [p, q] (stableSort catLt (exportWeeklyView s today d).by_cat)) := by
  have hdesc : ∀ m : List (String × Int),
      List.Pairwise (fun a b => b.2 ≤ a.2) (stableSort catLt m) := by
    intro m
    have h := pairwise_stableSort catLt catLt_neg_trans catLt_asymm m
    refine h.imp ?_
    intro a b hba
    rw [Bool.eq_false_iff, ne_eq, catLt_eq_true] at hba
    omega
  have hstab : ∀ m : List (String × Int), p.2 = q.2 → List.Sublist [p, q] m →
      List.Sublist [p, q] (stableSort catLt m) := by
    intro m hpq hsub
    refine stableSort_stable catLt p q ?_ m hsub
    rw [Bool.eq_false_iff, ne_eq, catLt_eq_true]
    omega
  exact ⟨hdesc _, hdesc _, keys_byCat _, keys_byCat _,
    fun hpq h => hstab _ hpq h, fun hpq h => hstab _ hpq h⟩

/-- C7 witness: in the tie fixture, "Dev" and "Ops" tie at 30 minutes,
"Dev" occurred first, and the sorted day-view breakdown keeps "Dev"
before "Ops". -/
theorem C7_by_category_witness :
    List.Sublist [(("Dev" : String), (30 : Int)), ("Ops", 30)]
      (homeView tieFixture 0 0).by_cat :=
  (C7_by_category_order tieFixture 0 0 ("Dev", 30) ("Ops", 30)).2.2.2.2.1
    rfl (by decide)

theorem toggle_task_twice (xs : List Task) (tid : Nat) :
    toggle_task (toggle_task xs tid) tid = xs := by
  induction xs with
  | nil => rfl
  | cons t rest ih =>
    obtain ⟨i, ld, tts, ti, dn⟩ := t
    cases h : (i == tid) with
    | true => simp [toggle_task, h, Bool.not_not]
    | false => simp [toggle_task, h, ih]

theorem toggle_task_noop (xs : List Task) (tid : Nat)
    (h : ∀ t ∈ xs, t.id ≠ tid) : toggle_task xs tid = xs := by
  induction xs with
  | nil => rfl
  | cons t rest ih =>
    have ht : (t.id == tid) = false := by
      rw [beq_eq_false_iff_ne]
      exact h t (List.mem_cons_self t rest)
    simp only [toggle_task, ht, Bool.false_eq_true, if_false]
    rw [ih (fun x hx => h x (List.mem_cons_of_mem t hx))]

theorem toggle_task_stripDone (xs : List Task) (tid : Nat) :
    (toggle_task xs tid).map stripDone = xs.map stripDone := by
  induction xs with
  | nil => rfl
  | cons t rest ih =>
    obtain ⟨i, ld, tts, ti, dn⟩ := t
    cases h : (i == tid) with
    | true => simp [toggle_task, h, stripDone]
    | false => simp [toggle_task, h, stripDone, ih]

/-- C8: toggle_task flips only the done flag of the identified task
(everything except done flags is preserved), toggling the same id twice
restores the original task list, and toggling an id no stored task has
leaves the whole store unchanged. -/
theorem C8_toggle_task (s : Store) (tid : Nat) :
    toggle_task (toggle_task s.tasks tid) tid = s.tasks
    ∧ (toggleTaskStore s tid).logs = s.logs
    ∧ ((∀ t ∈ s.tasks, t.id ≠ tid) → toggleTaskStore s tid = s)
    ∧ (toggle_task s.tasks tid).map stripDone = s.tasks.map stripDone := by
  refine ⟨toggle_task_twice s.tasks tid, rfl, ?_, toggle_task_stripDone s.tasks tid⟩
  intro h
  show { s with tasks := toggle_task s.tasks tid } = s
  rw [toggle_task_noop s.tasks tid h]

/-- C8 witness: the toggle fixture holds task ids 1 and 2 only, and
toggling the absent id 5 is a no-op on the store. -/
theorem C8_toggle_witness : toggleTaskStore toggleFixture 5 = toggleFixture :=
  (C8_toggle_task toggleFixture 5).2.2.1 (by decide)

/-- C9 amended: every request carrying a nonempty malformed day parameter
is rejected with InvalidDate — the handler result is the error, carrying
no aggregate or streak output — for both the day view and the weekly
export; an empty day parameter is instead treated as absent (Python
falsiness) and falls back to the current day. -/
theorem C9_invalid_day (s : Store) (today : Int) (str : String)
    (hne : str ≠ "") (hbad : parseIsoDate str = none) :
    home s today (some str) = Except.error RequestError.invalidDate
    ∧ export_weekly s today (some str) = Except.error RequestError.invalidDate := by
  have hb : (str == "") = false := by
    rw [beq_eq_false_iff_ne]
    exact hne
  constructor
  · simp [home, parseDayParam, hb, hbad, Except.map]
  · simp [export_weekly, parseDayParam, hb, hbad, Except.map]

/-- C9 witness: the malformed day 2024-13-01 is rejected by both
endpoints. -/
theorem C9_invalid_day_witness :
    home emptyStore 0 (some "2024-13-01") = Except.error RequestError.invalidDate
    ∧ export_weekly emptyStore 0 (some "2024-13-01")
        = Except.error RequestError.invalidDate :=
  C9_invalid_day emptyStore 0 "2024-13-01" (by decide) (by decide)

/-- C9 counterexample: the empty string is not an ISO-8601 YYYY-MM-DD
date, yet the request is not rejected: `if day` is false for "", so the
handler falls back to the current day and answers normally. -/
theorem C9_counterexample :
    home emptyStore 0 (some "") = Except.ok (homeView emptyStore 0 0) := rfl

/-- C10: for a fixed store, the streak shown by the day view and by the
weekly report does not depend on the requested day: calculate_streak
walks from the ambient current date, so any two requested days give the
same streak, across both endpoints. -/
theorem C10_streak_ignores_day (s : Store) (today d1 d2 : Int) :
    (homeView s today d1).streak = (homeView s today d2).streak
    ∧ (exportWeeklyView s today d1).streak = (exportWeeklyView s today d2).streak
    ∧ (homeView s today d1).streak = calculate_streak s today
    ∧ (exportWeeklyView s today d1).streak = calculate_streak s today :=
  ⟨rfl, rfl, rfl, rfl⟩

end MissionLog
